import Mathlib

/-!
Shallow Lean embedding of the word-highlight playback coordinator and quiz
normalization of the `dailyenglishtest` application (src/App.tsx).

Conventions:
* JS strings are Lean `String`s (lists of characters); `.length` agrees on
  the ASCII texts these claims are about.
* JS `setInterval` callbacks become explicit state-transition functions;
  the interval being armed is an `Option` field of the coordinator state.
* JS numbers used as word indices and millisecond budgets are `Nat`
  (the pause budget is clamped at 0 in the source, so it never goes
  negative); the speech rate is `ℚ`.
-/

/-- JS whitespace characters (the common ones produced by `\s`). -/
def isSpaceJS (c : Char) : Bool :=
  c = ' ' ∨ c = '\t' ∨ c = '\n' ∨ c = '\r' ∨ c = '\x0b' ∨ c = '\x0c'

/-- JS `String.prototype.trim`: drop whitespace from both ends. -/
def trimJS (s : String) : String :=
  ⟨((s.toList.dropWhile isSpaceJS).reverse.dropWhile isSpaceJS).reverse⟩

/-- JS `String.prototype.toLowerCase` (ASCII-faithful). -/
def lowerJS (s : String) : String := ⟨s.toList.map Char.toLower⟩

/-- JS `String.prototype.includes`: substring test. -/
def strContains (needle : List Char) : List Char → Bool
  | [] => needle.isPrefixOf []
  | c :: t => needle.isPrefixOf (c :: t) || strContains needle t

/-- Splitting helper for `storyWords`: collect the maximal runs of
non-whitespace characters, with `cur` holding the current run reversed. -/
def wordsAux : List Char → List Char → List String
  | [], cur => if cur.isEmpty then [] else [⟨cur.reverse⟩]
  | c :: t, cur =>
    if isSpaceJS c then
      if cur.isEmpty then wordsAux t [] else (⟨cur.reverse⟩ : String) :: wordsAux t []
    else wordsAux t (c :: cur)

/-- `story.split(/\s+/).filter(Boolean)` — the word list of a story: the
maximal runs of non-whitespace characters (splitting on whitespace and
dropping the empty fragments, which is what the regex split composed with
`filter(Boolean)` produces). -/
def storyWords (story : String) : List String :=
  wordsAux story.toList []

/-- The label letters `[A-D]` (with the `i` flag) of the `stripLabel` regex. -/
def isLabelLetter (c : Char) : Bool :=
  ('A' ≤ c ∧ c ≤ 'D') ∨ ('a' ≤ c ∧ c ≤ 'd')

/-- The punctuation alternatives `[\)\.\:\-]` of the `stripLabel` regex. -/
def isLabelPunct (c : Char) : Bool :=
  c = ')' ∨ c = '.' ∨ c = ':' ∨ c = '-'

/-- The part of `stripLabel` that matches the regex
`^\s*[A-D]\s*(?:[\)\.\:\-]\s*|\-\s*)` (case-insensitive) against the start of
the string: `some rest` when the pattern matches and `rest` is what remains
after removing the matched prefix, `none` when it does not match. -/
def stripLabelCore (l : List Char) : Option (List Char) :=
  match l.dropWhile isSpaceJS with
  | [] => none
  | c :: r1 =>
    if isLabelLetter c then
      match r1.dropWhile isSpaceJS with
      | [] => none
      | d :: r2 => if isLabelPunct d then some (r2.dropWhile isSpaceJS) else none
    else none

/-- `stripLabel`: remove a leading `"A) "` / `"B. "`-style label from an
option string (the regex replace leaves the string unchanged when the
pattern does not match), then `trim`. -/
def stripLabel (s : String) : String :=
  trimJS (match stripLabelCore s.toList with
          | some r => ⟨r⟩
          | none => s)

/-- Normalized quiz question (src/types.ts `QuizQuestion`). -/
structure QuizQuestion where
  question : String
  options : List String
  correctAnswer : String
deriving Repr, DecidableEq

/-- Raw quiz item as received from the content service (the `AnyQuiz` type of
src/App.tsx); absent JS fields are `none`. -/
structure AnyQuiz where
  question : String
  options : List String
  correctAnswer : Option String := none
  correct : Option String := none
  answer : Option String := none
  correctAnswerIndex : Option Int := none
deriving Repr, DecidableEq

/-- `(q.correctAnswer ?? q.correct ?? q.answer ?? '').toString().trim()`. -/
def rawAnsOf (q : AnyQuiz) : String :=
  trimJS (((q.correctAnswer <|> q.correct) <|> q.answer).getD "")

/-- JS `Array.prototype.findIndex`, with `none` standing for `-1`. -/
def findIndexJS (p : α → Bool) : List α → Option Nat
  | [] => none
  | a :: t => if p a then some 0 else (findIndexJS p t).map (· + 1)

/-- `rawAns.match(/^[A-Z]/i)?.[0]`: the first character when it is an ASCII
letter, else `none`. -/
def firstLetter (s : String) : Option Char :=
  match s.toList with
  | [] => none
  | c :: _ => if ('A' ≤ c ∧ c ≤ 'Z') ∨ ('a' ≤ c ∧ c ≤ 'z') then some c else none

/-- `letter.toUpperCase().charCodeAt(0) - 65`. -/
def letterIdx (c : Char) : Nat := c.toUpper.toNat - 65

/-- Step 3 of `normalizeQuizData` (src/App.tsx lines 47–52): exact
case-insensitive text match of the label-stripped raw answer against the
options, else the first option containing it as a substring, else
`options[0] ?? ''`. An in-range index found by `findIndex` selects that
option verbatim (JS `options[idx]`, which the `?:` keeps even when the
option text is empty). -/
def quizTextIdx (options : List String) (norm : String) : Option Nat :=
  (findIndexJS (fun o => lowerJS o = lowerJS norm) options) <|>
  (findIndexJS (fun o => strContains (lowerJS norm).toList (lowerJS o).toList) options)

def quizTextMatch (question : String) (options : List String) (rawAns : String) :
    QuizQuestion :=
  match quizTextIdx options (stripLabel rawAns) with
  | some i => ⟨question, options, options.getD i ""⟩
  | none => ⟨question, options, options.headD ""⟩

/-- Step 2 of `normalizeQuizData` (lines 39–45): when the raw answer starts
with an ASCII letter (`/^[A-Z]/i`), map the letter to the zero-based index
`charCode - 65` and pick `options[idx] ?? options[0] ?? ''` (the `??` falls
through only for an out-of-range index, not for an empty option text);
otherwise fall through to the text-matching step. -/
def quizLetterOrText (question : String) (options : List String) (rawAns : String) :
    QuizQuestion :=
  match firstLetter rawAns with
  | some c =>
    if letterIdx c < options.length then ⟨question, options, options.getD (letterIdx c) ""⟩
    else ⟨question, options, options.headD ""⟩
  | none => quizTextMatch question options rawAns

/-- One item of `normalizeQuizData` (src/App.tsx lines 29–54): strip labels
from all options; then (1) use an explicit numeric index when it selects a
truthy option, else (2) the leading-letter branch, else (3) text matching. -/
def normalizeQuizItem (q : AnyQuiz) : QuizQuestion :=
  match q.correctAnswerIndex with
  | some n =>
    if 0 ≤ n ∧ (q.options.map stripLabel).getD n.toNat "" ≠ "" then
      ⟨q.question, q.options.map stripLabel, (q.options.map stripLabel).getD n.toNat ""⟩
    else quizLetterOrText q.question (q.options.map stripLabel) (rawAnsOf q)
  | none => quizLetterOrText q.question (q.options.map stripLabel) (rawAnsOf q)

/-- `normalizeQuizData` maps the item normalizer over the raw list. -/
def normalizeQuizData (raw : List AnyQuiz) : List QuizQuestion :=
  raw.map normalizeQuizItem

/-- `getMsPerWord` (src/App.tsx lines 245–249): per-word delay of the
fallback pacing timer, as a function of the speech rate. -/
def getMsPerWord (speechRate : ℚ) : Nat :=
  if speechRate ≤ 0.6 then 420
  else if speechRate < 1.1 then 340
  else 150

/-- `PAUSE_MS_SENTENCE = rate <= 0.6 ? 800 : 400` (line 258). -/
def pauseMsSentence (rate : ℚ) : Nat := if rate ≤ 0.6 then 800 else 400

/-- `PAUSE_MS_COMMA = rate <= 0.6 ? 200 : 100` (line 259). -/
def pauseMsComma (rate : ℚ) : Nat := if rate ≤ 0.6 then 200 else 100

/-- Pause budget charged after pronouncing a word, from its last character
(lines 292–300): sentence punctuation `.!?` yields the sentence pause,
clause punctuation `,:;` the comma pause, anything else no pause. The
guard `if (previousWord)` makes an absent or empty word contribute 0. -/
def pauseFor (rate : ℚ) (w : String) : Nat :=
  match w.toList.getLast? with
  | some c =>
    if c = '.' ∨ c = '!' ∨ c = '?' then pauseMsSentence rate
    else if c = ',' ∨ c = ':' ∨ c = ';' then pauseMsComma rate
    else 0
  | none => 0

/-- The pause budget set after writing a new index, computed from the word
just pronounced: `const previousWord = words[i - 1]` guarded by
`if (previousWord)` (lines 290–300); an absent word yields no pause. -/
def pauseAt (words : List String) (rate : ℚ) (i : Nat) : Nat :=
  match words.get? i with
  | some w => pauseFor rate w
  | none => 0

/-- Cumulative character length of the first `k` words where each word
contributes `word.length + 1` (its separating space). -/
def cumLen (words : List String) (k : Nat) : Nat :=
  ((words.take k).map (fun w => w.length + 1)).sum

/-- The scan of `utterance.onboundary` (lines 365–372): walk the word list
accumulating `words[i].length + 1` into `count`; return the first index
where `count > charIndex`, or `none` when the loop runs off the end
(in which case the handler performs no index update). -/
def boundaryLoop (charIndex : Nat) : List String → Nat → Nat → Option Nat
  | [], _, _ => none
  | w :: rest, count, i =>
    let c := count + (w.length + 1)
    if charIndex < c then some i else boundaryLoop charIndex rest c (i + 1)

/-- Boundary-to-word mapping: word index computed for a character offset. -/
def boundaryIndex (words : List String) (charIndex : Nat) : Option Nat :=
  boundaryLoop charIndex words 0 0

/-- Closure state of the `startFallback` interval callback: the word index
variable `i` and the pause budget `remainingPauseMs` (clamped at 0 by the
source, hence a `Nat`). -/
structure FBClosure where
  i : Nat
  remainingPauseMs : Nat
deriving Repr, DecidableEq

/-- Playback coordinator state: the React state (`isSpeaking`,
`currentWordIndex`, `error`) and the refs/timers of src/App.tsx
(`stoppedByUserRef`, `highlightTimerRef` together with its closure state,
the 900 ms arbitration `fallbackTimer`, `firstBoundaryHeardRef`). -/
structure CoordState where
  isSpeaking : Bool
  currentWordIndex : Option Nat
  stoppedByUser : Bool
  errorMsg : Option String
  highlightTimer : Option FBClosure
  fallbackTimerArmed : Bool
  firstBoundaryHeard : Bool
deriving Repr, DecidableEq

/-- `startFallback` entry (lines 251–263): `i = 0`, highlight the first
word, `remainingPauseMs = 0`, arm the interval. -/
def startFallback (s : CoordState) : CoordState :=
  { s with currentWordIndex := some 0, highlightTimer := some ⟨0, 0⟩ }

/-- One firing of the `startFallback` interval callback (lines 263–302),
returning the updated state and the word index written this tick (if any).
A tick with the interval not armed is a no-op; a tick after teardown
(`isSpeakingRef` false) clears the interval; an active pause budget is
decremented by `msPerWord` and the index only advances once it is
exhausted; advancing past the last word stops the timer, clears the
speaking flag and the index. -/
def fbTickW (words : List String) (rate : ℚ) (s : CoordState) :
    CoordState × Option Nat :=
  match s.highlightTimer with
  | none => (s, none)
  | some fb =>
    if s.isSpeaking = false then ({ s with highlightTimer := none }, none)
    else
      let ms := getMsPerWord rate
      if 0 < fb.remainingPauseMs ∧ ms < fb.remainingPauseMs then
        ({ s with highlightTimer := some ⟨fb.i, fb.remainingPauseMs - ms⟩ }, none)
      else
        let i := fb.i + 1
        if words.length ≤ i then
          ({ s with highlightTimer := none, isSpeaking := false,
                    currentWordIndex := none }, none)
        else
          ({ s with highlightTimer := some ⟨i, pauseAt words rate (i - 1)⟩,
                    currentWordIndex := some i }, some i)

/-- Run the fallback interval for at most `fuel` ticks (it fires only while
armed), collecting the word indices written, and return the final state. -/
def fbRun (words : List String) (rate : ℚ) : CoordState → Nat → List Nat × CoordState
  | s, 0 => ([], s)
  | s, fuel + 1 =>
    match s.highlightTimer with
    | none => ([], s)
    | some _ =>
      let p := fbTickW words rate s
      let rest := fbRun words rate p.1 fuel
      (p.2.toList ++ rest.1, rest.2)

/-- `stopSpeaking` (lines 187–197): set the stopped-by-user flag, cancel
speech, clear the pacing interval, clear the speaking flag, the index and
any displayed error. (The 120 ms timeout that re-clears the flag is the
separate event `graceTimeout`.) -/
def stopSpeaking (s : CoordState) : CoordState :=
  { s with stoppedByUser := true, highlightTimer := none, isSpeaking := false,
           currentWordIndex := none, errorMsg := none }

/-- The 120 ms timeout scheduled by `stopSpeaking` (line 196): the end of
the grace window, re-clearing the stopped-by-user flag. -/
def graceTimeout (s : CoordState) : CoordState := { s with stoppedByUser := false }

/-- `utterance.onerror` (lines 382–394): clear both timers; an error while
the stopped-by-user flag is set (or of kind interrupted/canceled) is
discarded without setting a user-visible message. -/
def onError (errKind : String) (s : CoordState) : CoordState :=
  let s1 := { s with fallbackTimerArmed := false, highlightTimer := none }
  if s1.stoppedByUser = true ∨ errKind = "interrupted" ∨ errKind = "canceled" then
    { s1 with isSpeaking := false, currentWordIndex := none }
  else
    { s1 with errorMsg := some "Could not play audio. Your browser may not support this feature.",
              isSpeaking := false, currentWordIndex := none }

/-- `utterance.onboundary` (lines 357–373): on the first boundary event,
latch the flag and cancel both the arbitration deadline timer and any
running fallback interval; then map the character offset to a word index
and publish it (no update when the scan runs off the end). -/
def onBoundary (words : List String) (charIndex : Nat) (s : CoordState) : CoordState :=
  let s1 :=
    if s.firstBoundaryHeard = false then
      { s with firstBoundaryHeard := true, fallbackTimerArmed := false,
               highlightTimer := none }
    else s
  match boundaryIndex words charIndex with
  | some i => { s1 with currentWordIndex := some i }
  | none => s1

/-- `ResultsScreen` score reduction (lines 590–593), with the running index
of `reduce` made explicit: `acc + (question.correctAnswer === userAnswers[index] ? 1 : 0)`. -/
def scoreAux (answers : List String) : List QuizQuestion → Nat → Nat → Nat
  | [], _, acc => acc
  | q :: rest, i, acc =>
    scoreAux answers rest (i + 1)
      (acc + if answers.get? i = some q.correctAnswer then 1 else 0)

/-- The quiz score of `ResultsScreen`. -/
def computeScore (quiz : List QuizQuestion) (answers : List String) : Nat :=
  scoreAux answers quiz 0 0

/-- JS `Math.round`: round half toward positive infinity. -/
def jsRound (x : ℚ) : Int := ⌊x + 1/2⌋

/-- `Math.round((score / quiz.length) * 100)` (line 594). -/
def computePercentage (quiz : List QuizQuestion) (answers : List String) : Int :=
  jsRound ((computeScore quiz answers : ℚ) / (quiz.length : ℚ) * 100)

/-! ### Basic facts about the embedded list operations -/

theorem findIndexJS_lt_length {p : α → Bool} :
    ∀ {l : List α} {i : Nat}, findIndexJS p l = some i → i < l.length := by
  intro l
  induction l with
  | nil => intro i h; simp [findIndexJS] at h
  | cons a t ih =>
    intro i h
    simp only [findIndexJS] at h
    by_cases hp : p a
    · rw [if_pos hp] at h
      cases h
      simp
    · rw [if_neg hp] at h
      obtain ⟨j, hj, hji⟩ := Option.map_eq_some'.mp h
      have := ih hj
      simp only [List.length_cons]
      omega

theorem getD_mem_of_lt {l : List String} {i : Nat} (h : i < l.length) :
    l.getD i "" ∈ l := by
  rw [List.getD_eq_getElem?_getD, List.getElem?_eq_getElem h]
  exact List.getElem_mem h

theorem headD_mem {l : List String} (h : l ≠ []) : l.headD "" ∈ l := by
  cases l with
  | nil => exact absurd rfl h
  | cons a t => simp [List.headD]

/-! ### C3: stopping a session -/

/-- **C3.** Invoking `stopSpeaking` on any session state clears
`currentWordIndex`, the speaking flag, the pacing interval and any shown
error, and latches the stopped-by-user flag; a speech-driver error
processed while that flag is still latched — i.e. within the 120 ms grace
window, before the `graceTimeout` event resets it — leaves the user-visible
error message unchanged (and in particular a driver error arriving right
after a stop surfaces no message); the `graceTimeout` event is what ends
the window. -/
theorem stop_clears_session_and_discards_errors (s t : CoordState) (e : String) :
    (stopSpeaking s).currentWordIndex = none ∧
    (stopSpeaking s).isSpeaking = false ∧
    (stopSpeaking s).highlightTimer = none ∧
    (stopSpeaking s).stoppedByUser = true ∧
    (stopSpeaking s).errorMsg = none ∧
    (onError e (stopSpeaking s)).errorMsg = none ∧
    (t.stoppedByUser = true → (onError e t).errorMsg = t.errorMsg) ∧
    (graceTimeout t).stoppedByUser = false := by
  refine ⟨rfl, rfl, rfl, rfl, rfl, ?_, ?_, rfl⟩
  · simp [onError, stopSpeaking]
  · intro h
    simp [onError, h]

/-- Witness for C3 at a concrete active session. -/
theorem stop_clears_session_and_discards_errors_witness :
    (stopSpeaking ⟨true, some 2, false, none, some ⟨2, 100⟩, false, false⟩).currentWordIndex = none ∧
    (stopSpeaking ⟨true, some 2, false, none, some ⟨2, 100⟩, false, false⟩).isSpeaking = false ∧
    (onError "interrupted" (stopSpeaking ⟨true, some 2, false, none, some ⟨2, 100⟩, false, false⟩)).errorMsg = none ∧
    ((⟨false, none, true, none, none, false, false⟩ : CoordState).stoppedByUser = true ∧
      (onError "synthesis-failed" (⟨false, none, true, none, none, false, false⟩ : CoordState)).errorMsg =
        (⟨false, none, true, none, none, false, false⟩ : CoordState).errorMsg) := by
  have h1 := stop_clears_session_and_discards_errors
    ⟨true, some 2, false, none, some ⟨2, 100⟩, false, false⟩
    ⟨false, none, true, none, none, false, false⟩ "interrupted"
  have h2 := stop_clears_session_and_discards_errors
    ⟨true, some 2, false, none, some ⟨2, 100⟩, false, false⟩
    ⟨false, none, true, none, none, false, false⟩ "synthesis-failed"
  exact ⟨h1.1, h1.2.1, h1.2.2.2.2.2.1, rfl, h2.2.2.2.2.2.2.1 rfl⟩

/-! ### C4: mutual exclusion of the two synchronization strategies -/

/-- **C4.** After arbitration the two strategies are mutually exclusive
writers of `currentWordIndex`: processing a boundary event while the
first-boundary latch is still clear cancels the arbitration deadline timer
and the fallback pacing interval and sets the latch; a boundary event never
arms the fallback interval, and a fallback tick with the interval not armed
changes nothing and writes no index; a fallback tick that fires after
session teardown (speaking flag false) clears the interval and performs no
index update. -/
theorem strategies_mutually_exclusive (words : List String) (rate : ℚ)
    (c : Nat) (s : CoordState) (fb : FBClosure) :
    (s.firstBoundaryHeard = false →
      (onBoundary words c s).highlightTimer = none ∧
      (onBoundary words c s).fallbackTimerArmed = false ∧
      (onBoundary words c s).firstBoundaryHeard = true) ∧
    (s.highlightTimer = none → (onBoundary words c s).highlightTimer = none) ∧
    (s.highlightTimer = none → fbTickW words rate s = (s, none)) ∧
    (s.highlightTimer = some fb → s.isSpeaking = false →
      fbTickW words rate s = ({ s with highlightTimer := none }, none)) := by
  refine ⟨?_, ?_, ?_, ?_⟩
  · intro h
    simp only [onBoundary, h]
    cases boundaryIndex words c <;> simp
  · intro h
    simp only [onBoundary]
    by_cases hf : s.firstBoundaryHeard = false <;>
      simp only [hf, if_pos, if_neg, Bool.true_eq_false, if_false, if_true] <;>
      cases boundaryIndex words c <;> simp [h]
  · intro h
    simp [fbTickW, h]
  · intro h hs
    simp [fbTickW, h, hs]

/-- Witness for C4 at a concrete pre-arbitration state and a concrete
torn-down state. -/
theorem strategies_mutually_exclusive_witness :
    ((onBoundary ["Hi", "there."] 3 ⟨true, some 0, false, none, some ⟨0, 0⟩, true, false⟩).highlightTimer = none ∧
     (onBoundary ["Hi", "there."] 3 ⟨true, some 0, false, none, some ⟨0, 0⟩, true, false⟩).fallbackTimerArmed = false ∧
     (onBoundary ["Hi", "there."] 3 ⟨true, some 0, false, none, some ⟨0, 0⟩, true, false⟩).firstBoundaryHeard = true) ∧
    fbTickW ["Hi", "there."] 1 ⟨false, some 1, false, none, some ⟨1, 0⟩, false, true⟩ =
      ({ (⟨false, some 1, false, none, some ⟨1, 0⟩, false, true⟩ : CoordState) with
          highlightTimer := none }, none) := by
  have h1 := strategies_mutually_exclusive ["Hi", "there."] 1 3
    ⟨true, some 0, false, none, some ⟨0, 0⟩, true, false⟩ ⟨0, 0⟩
  have h2 := strategies_mutually_exclusive ["Hi", "there."] 1 3
    ⟨false, some 1, false, none, some ⟨1, 0⟩, false, true⟩ ⟨1, 0⟩
  exact ⟨h1.1 rfl, h2.2.2.2 rfl rfl⟩

/-! ### C8: the pacing profile is a pure function of the rate -/

/-- **C8.** The pacing profile depends only on the rate: `msPerWord` is 420
for `rate ≤ 0.6`, 340 for `0.6 < rate < 1.1` and 150 otherwise; for every
rate the sentence-ending pause budget (charged for words ending in `.!?`)
strictly exceeds the clause pause budget (for words ending in `,;:`), and
both budgets are strictly larger at a slow rate (`≤ 0.6`) than at a faster
one. -/
theorem pacing_profile_pure_function (rate r1 r2 : ℚ) :
    (rate ≤ 0.6 → getMsPerWord rate = 420) ∧
    (0.6 < rate → rate < 1.1 → getMsPerWord rate = 340) ∧
    (1.1 ≤ rate → getMsPerWord rate = 150) ∧
    pauseMsComma rate < pauseMsSentence rate ∧
    (∀ (w : String) (c : Char), w.toList.getLast? = some c →
      ((c = '.' ∨ c = '!' ∨ c = '?') → pauseFor rate w = pauseMsSentence rate) ∧
      ((c = ',' ∨ c = ':' ∨ c = ';') → pauseFor rate w = pauseMsComma rate)) ∧
    (r1 ≤ 0.6 → 0.6 < r2 →
      pauseMsSentence r2 < pauseMsSentence r1 ∧ pauseMsComma r2 < pauseMsComma r1) := by
  refine ⟨?_, ?_, ?_, ?_, ?_, ?_⟩
  · intro h; simp [getMsPerWord, h]
  · intro h1 h2
    rw [getMsPerWord, if_neg (not_le.mpr h1), if_pos h2]
  · intro h
    rw [getMsPerWord, if_neg (by linarith), if_neg (by linarith)]
  · unfold pauseMsComma pauseMsSentence
    split_ifs <;> norm_num
  · intro w c hlast
    constructor
    · intro hc
      simp only [pauseFor, hlast]
      rw [if_pos hc]
    · intro hc
      simp only [pauseFor, hlast]
      rw [if_neg (by rcases hc with h | h | h <;> subst h <;> decide), if_pos hc]
  · intro h1 h2
    unfold pauseMsSentence pauseMsComma
    rw [if_pos h1, if_neg (not_le.mpr h2), if_pos h1, if_neg (not_le.mpr h2)]
    omega

/-- Witness for C8 at the two supported rates 0.5 and 1. -/
theorem pacing_profile_pure_function_witness :
    getMsPerWord 0.5 = 420 ∧ getMsPerWord 1 = 340 ∧
    pauseMsComma 1 < pauseMsSentence 1 ∧
    pauseFor 0.5 "there." = pauseMsSentence 0.5 ∧
    pauseFor 1 "How," = pauseMsComma 1 ∧
    (pauseMsSentence 1 < pauseMsSentence 0.5 ∧ pauseMsComma 1 < pauseMsComma 0.5) := by
  have h05 := pacing_profile_pure_function 0.5 0.5 1
  have h1 := pacing_profile_pure_function 1 0.5 1
  refine ⟨h05.1 (by norm_num), h1.2.1 (by norm_num) (by norm_num), h1.2.2.2.1, ?_, ?_, ?_⟩
  · exact (h05.2.2.2.2.1 "there." '.' rfl).1 (by simp)
  · exact (h1.2.2.2.2.1 "How," ',' rfl).2 (by simp)
  · exact h1.2.2.2.2.2 (by norm_num) (by norm_num)

/-! ### C2: boundary-to-word mapping -/

theorem boundaryLoop_ge :
    ∀ (ws : List String) (c count i j : Nat),
      boundaryLoop c ws count i = some j → i ≤ j := by
  intro ws
  induction ws with
  | nil => intro c count i j h; simp [boundaryLoop] at h
  | cons w rest ih =>
    intro c count i j h
    simp only [boundaryLoop] at h
    by_cases hc : c < count + (w.length + 1)
    · rw [if_pos hc] at h
      cases h
      exact Nat.le_refl _
    · rw [if_neg hc] at h
      have := ih c (count + (w.length + 1)) (i + 1) j h
      omega

theorem boundaryLoop_mono :
    ∀ (ws : List String) (c1 c2 count i j1 j2 : Nat), c1 ≤ c2 →
      boundaryLoop c1 ws count i = some j1 →
      boundaryLoop c2 ws count i = some j2 → j1 ≤ j2 := by
  intro ws
  induction ws with
  | nil => intro c1 c2 count i j1 j2 _ h1; simp [boundaryLoop] at h1
  | cons w rest ih =>
    intro c1 c2 count i j1 j2 hle h1 h2
    simp only [boundaryLoop] at h1 h2
    by_cases hc1 : c1 < count + (w.length + 1)
    · rw [if_pos hc1] at h1
      cases h1
      exact boundaryLoop_ge (w :: rest) c2 count i j2
        (by simp only [boundaryLoop]; exact h2)
    · have hc2 : ¬ c2 < count + (w.length + 1) := by omega
      rw [if_neg hc1] at h1
      rw [if_neg hc2] at h2
      exact ih c1 c2 (count + (w.length + 1)) (i + 1) j1 j2 hle h1 h2

theorem cumLen_cons (w : String) (rest : List String) (k : Nat) :
    cumLen (w :: rest) (k + 1) = (w.length + 1) + cumLen rest k := by
  simp [cumLen, List.take_succ_cons]

theorem boundaryLoop_char :
    ∀ (ws : List String) (c count i0 j : Nat),
      boundaryLoop c ws count i0 = some j ↔
        ∃ k, j = i0 + k ∧ k < ws.length ∧ c < count + cumLen ws (k + 1) ∧
             ∀ m < k, count + cumLen ws (m + 1) ≤ c := by
  intro ws
  induction ws with
  | nil =>
    intro c count i0 j
    simp [boundaryLoop]
  | cons w rest ih =>
    intro c count i0 j
    simp only [boundaryLoop]
    by_cases hc : c < count + (w.length + 1)
    · rw [if_pos hc]
      constructor
      · intro h
        cases h
        exact ⟨0, rfl, by simp, by rw [cumLen_cons, cumLen]; simpa using hc,
               fun m hm => absurd hm (Nat.not_lt_zero m)⟩
      · rintro ⟨k, rfl, hk, hck, hall⟩
        cases k with
        | zero => rfl
        | succ k' =>
          have h0 := hall 0 (Nat.succ_pos k')
          rw [cumLen_cons, cumLen] at h0
          simp at h0
          omega
    · rw [if_neg hc]
      rw [ih c (count + (w.length + 1)) (i0 + 1) j]
      constructor
      · rintro ⟨k, rfl, hk, hck, hall⟩
        refine ⟨k + 1, by omega, by simp; omega, ?_, ?_⟩
        · rw [cumLen_cons]; omega
        · intro m hm
          cases m with
          | zero => rw [cumLen_cons, cumLen]; simp; omega
          | succ m' =>
            have := hall m' (by omega)
            rw [cumLen_cons]
            omega
      · rintro ⟨k, hj, hk, hck, hall⟩
        cases k with
        | zero =>
          rw [cumLen_cons, cumLen] at hck
          simp at hck
          omega
        | succ k' =>
          refine ⟨k', by omega, by simp at hk; omega, ?_, ?_⟩
          · rw [cumLen_cons] at hck; omega
          · intro m hm
            have := hall (m + 1) (by omega)
            rw [cumLen_cons] at this
            omega

theorem pairwise_le_filterMap (f : Nat → Option Nat)
    (hf : ∀ a b x y, a ≤ b → f a = some x → f b = some y → x ≤ y) :
    ∀ l : List Nat, l.Pairwise (· ≤ ·) → (l.filterMap f).Pairwise (· ≤ ·) := by
  intro l
  induction l with
  | nil => intro _; simp
  | cons a t ih =>
    intro hp
    rw [List.pairwise_cons] at hp
    rw [List.filterMap_cons]
    cases hfa : f a with
    | none => exact ih hp.2
    | some x =>
      rw [List.pairwise_cons]
      refine ⟨?_, ih hp.2⟩
      intro y hy
      obtain ⟨b, hb, hfb⟩ := List.mem_filterMap.mp hy
      exact hf a b x y (hp.1 b hb) hfa hfb

/-- **C2.** The boundary-to-word mapping sends a character offset to the
first word index whose cumulative length (each word contributing
`word.length + 1` for the separating space) exceeds the offset; as a
consequence the mapping is monotone in the offset, so any monotonically
increasing sequence of boundary offsets yields a non-decreasing sequence
of computed word indices. -/
theorem boundary_mapping_first_exceeding_and_monotone
    (words : List String) (c c1 c2 j j1 j2 : Nat) (os : List Nat) :
    (boundaryIndex words c = some j ↔
      (j < words.length ∧ c < cumLen words (j + 1) ∧
       ∀ m < j, cumLen words (m + 1) ≤ c)) ∧
    (c1 ≤ c2 → boundaryIndex words c1 = some j1 →
      boundaryIndex words c2 = some j2 → j1 ≤ j2) ∧
    (os.Pairwise (· ≤ ·) →
      (os.filterMap (boundaryIndex words)).Pairwise (· ≤ ·)) := by
  refine ⟨?_, ?_, ?_⟩
  · rw [boundaryIndex, boundaryLoop_char]
    constructor
    · rintro ⟨k, rfl, hk, hck, hall⟩
      exact ⟨by simpa using hk, by simpa using hck,
             fun m hm => by simpa using hall m (by omega)⟩
    · rintro ⟨hj, hcj, hall⟩
      exact ⟨j, by omega, hj, by simpa using hcj, fun m hm => by simpa using hall m hm⟩
  · intro hle h1 h2
    exact boundaryLoop_mono words c1 c2 0 0 j1 j2 hle h1 h2
  · exact pairwise_le_filterMap (boundaryIndex words)
      (fun a b x y hab hx hy => boundaryLoop_mono words a b 0 0 x y hab hx hy) os

/-- Witness for C2 on a concrete two-word story and offsets. -/
theorem boundary_mapping_first_exceeding_and_monotone_witness :
    (boundaryIndex ["Hi", "there."] 3 = some 1 ∧
      1 < (["Hi", "there."] : List String).length ∧
      3 < cumLen ["Hi", "there."] 2 ∧ ∀ m < 1, cumLen ["Hi", "there."] (m + 1) ≤ 3) ∧
    (boundaryIndex ["Hi", "there."] 0 = some 0 → boundaryIndex ["Hi", "there."] 3 = some 1 → 0 ≤ 1) ∧
    ([0, 3, 5].filterMap (boundaryIndex ["Hi", "there."])).Pairwise (· ≤ ·) := by
  have h := boundary_mapping_first_exceeding_and_monotone ["Hi", "there."] 3 0 3 1 0 1 [0, 3, 5]
  refine ⟨?_, ?_, h.2.2 (by decide)⟩
  · have hc : 1 < (["Hi", "there."] : List String).length ∧
        3 < cumLen ["Hi", "there."] 2 ∧ ∀ m < 1, cumLen ["Hi", "there."] (m + 1) ≤ 3 := by
      refine ⟨by decide, by decide, ?_⟩
      intro m hm
      interval_cases m
      decide
    exact ⟨h.1.mpr hc, hc⟩
  · intro h0 h3
    exact h.2.1 (by omega) h0 h3

/-! ### C9: quiz scoring -/

theorem scoreAux_counts (answers : List String) :
    ∀ (qs : List QuizQuestion) (n acc : Nat),
      scoreAux answers qs n acc =
        acc + (((List.range' n qs.length).zip qs).filter
          (fun p => answers.get? p.1 == some p.2.correctAnswer)).length := by
  intro qs
  induction qs with
  | nil => intro n acc; simp [scoreAux]
  | cons q rest ih =>
    intro n acc
    rw [scoreAux, ih (n + 1)]
    rw [List.length_cons, List.range'_succ, List.zip_cons_cons, List.filter_cons]
    by_cases hq : answers.get? n = some q.correctAnswer
    · rw [if_pos hq]
      have hb : (answers.get? n == some q.correctAnswer) = true := by simpa using hq
      simp only [hb, if_true, List.length_cons]
      omega
    · rw [if_neg hq]
      have hb : (answers.get? n == some q.correctAnswer) = false := by simpa using hq
      simp only [hb, Bool.false_eq_true, if_false]
      omega

/-- **C9.** The quiz score is the number of indices at which the user's
answer string equals the question's `correctAnswer` verbatim, and the
displayed percentage is `round(100 * score / questionCount)`; on the
3-question instance with correct answers A, B, C and user answers A, X, C
the score is 2 and the percentage 67. -/
theorem score_counts_exact_matches :
    (∀ (quiz : List QuizQuestion) (answers : List String),
      computeScore quiz answers =
        (((List.range quiz.length).zip quiz).filter
          (fun p => answers.get? p.1 == some p.2.correctAnswer)).length) ∧
    computeScore
      [⟨"q1", [], "A"⟩, ⟨"q2", [], "B"⟩, ⟨"q3", [], "C"⟩] ["A", "X", "C"] = 2 ∧
    computePercentage
      [⟨"q1", [], "A"⟩, ⟨"q2", [], "B"⟩, ⟨"q3", [], "C"⟩] ["A", "X", "C"] = 67 := by
  have hgen : ∀ (quiz : List QuizQuestion) (answers : List String),
      computeScore quiz answers =
        (((List.range quiz.length).zip quiz).filter
          (fun p => answers.get? p.1 == some p.2.correctAnswer)).length := by
    intro quiz answers
    have h := scoreAux_counts answers quiz 0 0
    rw [List.range_eq_range']
    simpa using h
  have h2 : computeScore
      [⟨"q1", [], "A"⟩, ⟨"q2", [], "B"⟩, ⟨"q3", [], "C"⟩] ["A", "X", "C"] = 2 := by
    decide
  refine ⟨hgen, h2, ?_⟩
  rw [computePercentage, h2]
  have hlen : (([⟨"q1", [], "A"⟩, ⟨"q2", [], "B"⟩, ⟨"q3", [], "C"⟩] :
      List QuizQuestion).length : ℚ) = 3 := by simp
  rw [hlen, jsRound]
  have : ((2 : Nat) : ℚ) / 3 * 100 + 1 / 2 = 403 / 6 := by norm_num
  rw [this]
  norm_num [Int.floor_eq_iff]

/-! ### C5, C6, C7, C10: quiz normalization -/

theorem orElse_eq_some {x y : Option Nat} {a : Nat} (h : (x <|> y) = some a) :
    x = some a ∨ y = some a := by
  cases x with
  | none => right; simpa using h
  | some b => left; simpa using h

theorem quizTextMatch_eq_some (question : String) (options : List String)
    (rawAns : String) (i : Nat)
    (h : quizTextIdx options (stripLabel rawAns) = some i) :
    quizTextMatch question options rawAns = ⟨question, options, options.getD i ""⟩ := by
  unfold quizTextMatch
  rw [h]

theorem quizTextMatch_eq_none (question : String) (options : List String)
    (rawAns : String) (h : quizTextIdx options (stripLabel rawAns) = none) :
    quizTextMatch question options rawAns = ⟨question, options, options.headD ""⟩ := by
  unfold quizTextMatch
  rw [h]

theorem quizLetterOrText_eq_some (question : String) (options : List String)
    (rawAns : String) (c : Char) (h : firstLetter rawAns = some c) :
    quizLetterOrText question options rawAns =
      if letterIdx c < options.length then ⟨question, options, options.getD (letterIdx c) ""⟩
      else ⟨question, options, options.headD ""⟩ := by
  unfold quizLetterOrText
  rw [h]

theorem quizLetterOrText_eq_none (question : String) (options : List String)
    (rawAns : String) (h : firstLetter rawAns = none) :
    quizLetterOrText question options rawAns = quizTextMatch question options rawAns := by
  unfold quizLetterOrText
  rw [h]

theorem quizTextMatch_closed (question : String) (options : List String)
    (rawAns : String) :
    (quizTextMatch question options rawAns).options = options ∧
    (options ≠ [] →
      (quizTextMatch question options rawAns).correctAnswer ∈ options) ∧
    (options = [] → (quizTextMatch question options rawAns).correctAnswer = "") := by
  cases hix : quizTextIdx options (stripLabel rawAns) with
  | some i =>
    rw [quizTextMatch_eq_some question options rawAns i hix]
    have hlt : i < options.length := by
      rcases orElse_eq_some hix with h | h
      · exact findIndexJS_lt_length h
      · exact findIndexJS_lt_length h
    refine ⟨rfl, fun _ => getD_mem_of_lt hlt, fun he => ?_⟩
    subst he
    simp at hlt
  | none =>
    rw [quizTextMatch_eq_none question options rawAns hix]
    refine ⟨rfl, fun hne => headD_mem hne, fun he => ?_⟩
    subst he
    rfl

theorem quizLetterOrText_closed (question : String) (options : List String)
    (rawAns : String) :
    (quizLetterOrText question options rawAns).options = options ∧
    (options ≠ [] →
      (quizLetterOrText question options rawAns).correctAnswer ∈ options) ∧
    (options = [] → (quizLetterOrText question options rawAns).correctAnswer = "") := by
  cases hfl : firstLetter rawAns with
  | some c =>
    rw [quizLetterOrText_eq_some question options rawAns c hfl]
    by_cases hlt : letterIdx c < options.length
    · rw [if_pos hlt]
      refine ⟨rfl, fun _ => getD_mem_of_lt hlt, fun he => ?_⟩
      subst he
      simp at hlt
    · rw [if_neg hlt]
      refine ⟨rfl, fun hne => headD_mem hne, fun he => ?_⟩
      subst he
      rfl
  | none =>
    rw [quizLetterOrText_eq_none question options rawAns hfl]
    exact quizTextMatch_closed question options rawAns

theorem normalizeQuizItem_eq_idx (q : AnyQuiz) (n : Int)
    (hci : q.correctAnswerIndex = some n)
    (hg : 0 ≤ n ∧ (q.options.map stripLabel).getD n.toNat "" ≠ "") :
    normalizeQuizItem q =
      ⟨q.question, q.options.map stripLabel, (q.options.map stripLabel).getD n.toNat ""⟩ := by
  unfold normalizeQuizItem
  rw [hci]
  exact if_pos hg

theorem normalizeQuizItem_eq_letterOrText (q : AnyQuiz)
    (h : q.correctAnswerIndex = none ∨
      ∃ n, q.correctAnswerIndex = some n ∧
        ¬(0 ≤ n ∧ (q.options.map stripLabel).getD n.toNat "" ≠ "")) :
    normalizeQuizItem q =
      quizLetterOrText q.question (q.options.map stripLabel) (rawAnsOf q) := by
  unfold normalizeQuizItem
  rcases h with h | ⟨n, hn, hg⟩
  · rw [h]
  · rw [hn]
    exact if_neg hg

theorem normalizeQuizItem_closed (q : AnyQuiz) :
    (normalizeQuizItem q).options = q.options.map stripLabel ∧
    ((normalizeQuizItem q).options ≠ [] →
      (normalizeQuizItem q).correctAnswer ∈ (normalizeQuizItem q).options) ∧
    ((normalizeQuizItem q).options = [] → (normalizeQuizItem q).correctAnswer = "") := by
  cases hci : q.correctAnswerIndex with
  | some n =>
    by_cases hg : 0 ≤ n ∧ (q.options.map stripLabel).getD n.toNat "" ≠ ""
    · rw [normalizeQuizItem_eq_idx q n hci hg]
      have hlt : n.toNat < (q.options.map stripLabel).length := by
        by_contra hge
        exact hg.2 (List.getD_eq_default _ _ (by omega))
      refine ⟨rfl, fun _ => getD_mem_of_lt hlt, fun he => ?_⟩
      have he2 : q.options.map stripLabel = [] := he
      rw [he2] at hlt
      simp at hlt
    · rw [normalizeQuizItem_eq_letterOrText q (Or.inr ⟨n, hci, hg⟩)]
      have h := quizLetterOrText_closed q.question (q.options.map stripLabel) (rawAnsOf q)
      rw [h.1]
      exact ⟨rfl, h.2.1, h.2.2⟩
  | none =>
    rw [normalizeQuizItem_eq_letterOrText q (Or.inl hci)]
    have h := quizLetterOrText_closed q.question (q.options.map stripLabel) (rawAnsOf q)
    rw [h.1]
    exact ⟨rfl, h.2.1, h.2.2⟩

/-- **C5.** Normalization is closed over the options: for every raw quiz
item, when the (label-stripped) options list of the output is non-empty,
the normalized `correctAnswer` is a verbatim member of the output options
list — whatever form the raw answer takes — and when the options list is
empty the normalized `correctAnswer` is the empty string. -/
theorem normalization_answer_in_options (raw : List AnyQuiz) (out : QuizQuestion)
    (hmem : out ∈ normalizeQuizData raw) :
    (out.options ≠ [] → out.correctAnswer ∈ out.options) ∧
    (out.options = [] → out.correctAnswer = "") := by
  obtain ⟨q, _, rfl⟩ := List.mem_map.mp hmem
  exact ⟨(normalizeQuizItem_closed q).2.1, (normalizeQuizItem_closed q).2.2⟩

/-- Witness for C5: a numeric-index item, a no-match text item, and an
empty-options item. -/
theorem normalization_answer_in_options_witness :
    ((normalizeQuizItem ⟨"q1", ["Cat", "Dog"], none, none, none, some 1⟩).correctAnswer
        ∈ (normalizeQuizItem ⟨"q1", ["Cat", "Dog"], none, none, none, some 1⟩).options) ∧
    ((normalizeQuizItem ⟨"q2", ["Cat", "Dog"], some "99-ish", none, none, none⟩).correctAnswer
        ∈ (normalizeQuizItem ⟨"q2", ["Cat", "Dog"], some "99-ish", none, none, none⟩).options) ∧
    (normalizeQuizItem ⟨"q3", [], some "B", none, none, none⟩).correctAnswer = "" := by
  have h1 := normalization_answer_in_options
    [⟨"q1", ["Cat", "Dog"], none, none, none, some 1⟩]
    (normalizeQuizItem ⟨"q1", ["Cat", "Dog"], none, none, none, some 1⟩)
    (by simp [normalizeQuizData])
  have h2 := normalization_answer_in_options
    [⟨"q2", ["Cat", "Dog"], some "99-ish", none, none, none⟩]
    (normalizeQuizItem ⟨"q2", ["Cat", "Dog"], some "99-ish", none, none, none⟩)
    (by simp [normalizeQuizData])
  have h3 := normalization_answer_in_options
    [⟨"q3", [], some "B", none, none, none⟩]
    (normalizeQuizItem ⟨"q3", [], some "B", none, none, none⟩)
    (by simp [normalizeQuizData])
  exact ⟨h1.1 (by decide), h2.1 (by decide), h3.2 (by decide)⟩

/-- **C10.** When no numeric index is present, the letter branch fires for
any raw answer whose first character is an ASCII letter (A–Z, not only
A–D): if the letter's alphabetical index is out of range for the options
list, normalization returns `options[0]` — so the exact/substring
text-matching step is never consulted for such answers. -/
theorem letter_branch_out_of_range_defaults_first (q : AnyQuiz) (c : Char)
    (hci : q.correctAnswerIndex = none)
    (_hne : q.options.map stripLabel ≠ [])
    (hfl : firstLetter (rawAnsOf q) = some c)
    (hout : (q.options.map stripLabel).length ≤ letterIdx c) :
    (normalizeQuizItem q).correctAnswer = (q.options.map stripLabel).headD "" := by
  rw [normalizeQuizItem_eq_letterOrText q (Or.inl hci),
      quizLetterOrText_eq_some q.question (q.options.map stripLabel) (rawAnsOf q) c hfl,
      if_neg (by omega)]

/-- Witness for C10: raw answer `"Elephant"` (letter E, index 4) against
four options falls back to the first option. -/
theorem letter_branch_out_of_range_defaults_first_witness :
    (⟨"q", ["Cat", "Dog", "Bird", "Fish"], some "Elephant", none, none, none⟩ :
        AnyQuiz).correctAnswerIndex = none ∧
    firstLetter (rawAnsOf ⟨"q", ["Cat", "Dog", "Bird", "Fish"], some "Elephant",
        none, none, none⟩) = some 'E' ∧
    (normalizeQuizItem ⟨"q", ["Cat", "Dog", "Bird", "Fish"], some "Elephant",
        none, none, none⟩).correctAnswer =
      ((["Cat", "Dog", "Bird", "Fish"] : List String).map stripLabel).headD "" := by
  refine ⟨rfl, by decide, ?_⟩
  exact letter_branch_out_of_range_defaults_first
    ⟨"q", ["Cat", "Dog", "Bird", "Fish"], some "Elephant", none, none, none⟩ 'E'
    rfl (by decide) (by decide) (by decide)

/-- **C6 (code evaluation).** For options `["Cat","Dog","Bird","Fish"]`,
no numeric index and raw answer `"dog"`, normalization returns `"Fish"`:
the leading-letter branch (`/^[A-Z]/i`) fires on the `d` of `"dog"` and maps
it to index 3, so the case-insensitive exact text match that would produce
`"Dog"` is never reached. -/
theorem dog_answer_maps_to_fish :
    normalizeQuizItem ⟨"q", ["Cat", "Dog", "Bird", "Fish"], some "dog",
        none, none, none⟩ =
      ⟨"q", ["Cat", "Dog", "Bird", "Fish"], "Fish"⟩ ∧
    ("Fish" : String) ≠ "Dog" := by
  exact ⟨by decide, by decide⟩

/-- **C7 (code evaluation).** Re-normalization is not idempotent: the item
with numeric index 1 normalizes to `correctAnswer = "Dog"`, but feeding
that already-normalized question back through normalization yields
`"Fish"` (the letter branch fires on the `D` of `"Dog"`, giving index 3). -/
theorem renormalize_dog_gives_fish :
    (normalizeQuizItem ⟨"q", ["Cat", "Dog", "Bird", "Fish"], none, none, none,
        some 1⟩).correctAnswer = "Dog" ∧
    ("Dog" : String) ∈ (["Cat", "Dog", "Bird", "Fish"] : List String).map stripLabel ∧
    (normalizeQuizItem ⟨"q", ["Cat", "Dog", "Bird", "Fish"], some "Dog",
        none, none, none⟩).correctAnswer = "Fish" ∧
    ("Fish" : String) ≠ "Dog" := by
  exact ⟨by decide, by decide, by decide, by decide⟩

/-! ### C1: the fallback pacing run visits every word exactly once -/

theorem getMsPerWord_ge (rate : ℚ) : 150 ≤ getMsPerWord rate := by
  unfold getMsPerWord
  split_ifs <;> omega

theorem pauseFor_le (rate : ℚ) (w : String) : pauseFor rate w ≤ 800 := by
  unfold pauseFor
  split
  · unfold pauseMsSentence pauseMsComma
    split_ifs <;> omega
  · omega

theorem pauseAt_le (words : List String) (rate : ℚ) (i : Nat) :
    pauseAt words rate i ≤ 800 := by
  unfold pauseAt
  cases words.get? i with
  | some w => exact pauseFor_le rate w
  | none => exact Nat.zero_le _

/-- Ticks consumed before the next index advance when the pause budget is
`r`: one tick when no pause is active, else `⌈r / ms⌉` ticks to drain it.
(Fuel bookkeeping for the proofs, not part of the source.) -/
def drTicks (ms r : Nat) : Nat := if r = 0 then 1 else (r + ms - 1) / ms

/-- Fuel sufficient to finish the fallback run from word index `i` with
pause budget `r` over a word list of length `L`. -/
def needTicks (ms L i r : Nat) : Nat := drTicks ms r + 6 * (L - i - 1)

theorem drTicks_pos (ms r : Nat) (h : 1 ≤ ms) : 1 ≤ drTicks ms r := by
  unfold drTicks
  split_ifs with h0
  · omega
  · exact (Nat.le_div_iff_mul_le (by omega)).mpr (by omega)

theorem drTicks_le_six (ms r : Nat) (hms : 150 ≤ ms) (hr : r ≤ 800) :
    drTicks ms r ≤ 6 := by
  unfold drTicks
  split_ifs with h0
  · omega
  · have h7 : (r + ms - 1) / ms < 7 := (Nat.div_lt_iff_lt_mul (by omega)).mpr (by omega)
    omega

theorem drTicks_drain (ms r : Nat) (hms : 1 ≤ ms) (h : ms < r) :
    drTicks ms r = drTicks ms (r - ms) + 1 := by
  unfold drTicks
  rw [if_neg (by omega), if_neg (by omega)]
  have h1 : r + ms - 1 = (r - ms + ms - 1) + ms := by omega
  rw [h1, Nat.add_div_right _ (by omega)]

/-- Unfolding equation for a tick whose interval closure is `⟨i, r⟩`. -/
theorem fbTickW_eq_mk (words : List String) (rate : ℚ) (s : CoordState)
    (i r : Nat) (ht : s.highlightTimer = some ⟨i, r⟩) :
    fbTickW words rate s =
      if s.isSpeaking = false then ({ s with highlightTimer := none }, none)
      else if 0 < r ∧ getMsPerWord rate < r then
        ({ s with highlightTimer := some ⟨i, r - getMsPerWord rate⟩ }, none)
      else if words.length ≤ i + 1 then
        ({ s with highlightTimer := none, isSpeaking := false,
                  currentWordIndex := none }, none)
      else
        ({ s with highlightTimer := some ⟨i + 1, pauseAt words rate i⟩,
                  currentWordIndex := some (i + 1) }, some (i + 1)) := by
  unfold fbTickW
  rw [ht]
  rfl

theorem fbRun_none (words : List String) (rate : ℚ) (s : CoordState) (fuel : Nat)
    (h : s.highlightTimer = none) : fbRun words rate s fuel = ([], s) := by
  cases fuel with
  | zero => rfl
  | succ n =>
    conv_lhs => unfold fbRun
    rw [h]

theorem fbRun_succ_some (words : List String) (rate : ℚ) (s : CoordState)
    (fb : FBClosure) (fuel : Nat) (h : s.highlightTimer = some fb) :
    fbRun words rate s (fuel + 1) =
      ((fbTickW words rate s).2.toList ++
         (fbRun words rate (fbTickW words rate s).1 fuel).1,
       (fbRun words rate (fbTickW words rate s).1 fuel).2) := by
  conv_lhs => unfold fbRun
  rw [h]

theorem fbRun_completes (words : List String) (rate : ℚ) :
    ∀ (fuel : Nat), ∀ (i r : Nat) (s : CoordState),
      s.isSpeaking = true → s.highlightTimer = some ⟨i, r⟩ →
      i < words.length → r ≤ 800 →
      needTicks (getMsPerWord rate) words.length i r ≤ fuel →
      fbRun words rate s fuel =
        (List.range' (i + 1) (words.length - (i + 1)),
         { s with highlightTimer := none, isSpeaking := false,
                  currentWordIndex := none }) := by
  intro fuel
  induction fuel with
  | zero =>
    intro i r s _ _ _ _ hfuel
    have hms := getMsPerWord_ge rate
    have h1 := drTicks_pos (getMsPerWord rate) r (by omega)
    unfold needTicks at hfuel
    omega
  | succ fuel ih =>
    intro i r s hs ht hi hr hfuel
    have hms := getMsPerWord_ge rate
    rw [fbRun_succ_some words rate s ⟨i, r⟩ fuel ht,
        fbTickW_eq_mk words rate s i r ht,
        if_neg (by rw [hs]; simp)]
    by_cases hp : 0 < r ∧ getMsPerWord rate < r
    · rw [if_pos hp]
      have hdrain := drTicks_drain (getMsPerWord rate) r (by omega) hp.2
      have hih := ih i (r - getMsPerWord rate)
        { s with highlightTimer := some ⟨i, r - getMsPerWord rate⟩ }
        hs rfl hi (by omega)
        (by unfold needTicks at hfuel ⊢; omega)
      rw [hih]
      simp
    · rw [if_neg hp]
      by_cases hend : words.length ≤ i + 1
      · rw [if_pos hend]
        rw [fbRun_none words rate _ fuel rfl]
        have h0 : words.length - (i + 1) = 0 := by omega
        rw [h0]
        rfl
      · rw [if_neg hend]
        have hr2 := pauseAt_le words rate i
        have hd1 := drTicks_pos (getMsPerWord rate) r (by omega)
        have hd6 := drTicks_le_six (getMsPerWord rate) (pauseAt words rate i)
          (by omega) hr2
        have hih := ih (i + 1) (pauseAt words rate i)
          { s with highlightTimer := some ⟨i + 1, pauseAt words rate i⟩,
                   currentWordIndex := some (i + 1) }
          hs rfl (by omega) hr2
          (by unfold needTicks at hfuel ⊢; omega)
        rw [hih]
        have hsplit : words.length - (i + 1) = (words.length - (i + 2)) + 1 := by omega
        rw [hsplit, List.range'_succ]
        rfl

/-- **C1.** For every story with a non-empty word list and every rate,
running the fallback pacing interval to completion (the session never
stopped: no external event flips the speaking flag) produces the word
indices `0, 1, …, len-1` — every index exactly once, in strictly
increasing order (`startFallback` writes index 0 and the ticks write the
rest) — after which the interval is cleared, `isSpeaking` is false and
`currentWordIndex` is null (Idle). Any fuel of at least `6*len + 1` ticks
suffices for the run to have terminated. -/
theorem fallback_pacing_visits_every_word (story : String) (rate : ℚ)
    (s : CoordState) (fuel : Nat)
    (hs : s.isSpeaking = true)
    (hw : storyWords story ≠ [])
    (hfuel : 6 * (storyWords story).length + 1 ≤ fuel) :
    (startFallback s).currentWordIndex = some 0 ∧
    0 :: (fbRun (storyWords story) rate (startFallback s) fuel).1 =
      List.range (storyWords story).length ∧
    (fbRun (storyWords story) rate (startFallback s) fuel).2 =
      { s with highlightTimer := none, isSpeaking := false,
               currentWordIndex := none } := by
  have hlen : 0 < (storyWords story).length := List.length_pos.mpr hw
  have hms := getMsPerWord_ge rate
  have hrun := fbRun_completes (storyWords story) rate fuel 0 0 (startFallback s)
    hs rfl hlen (by omega)
    (by unfold needTicks drTicks; rw [if_pos rfl]; omega)
  refine ⟨rfl, ?_, ?_⟩
  · rw [hrun]
    conv_rhs => rw [List.range_eq_range',
      show (storyWords story).length = ((storyWords story).length - 1) + 1 from by omega,
      List.range'_succ]
  · rw [hrun]
    rfl

/-- Witness for C1 on the three-word story `"Hi there. Bye"` at rate 1. -/
theorem fallback_pacing_visits_every_word_witness :
    ((⟨true, none, false, none, none, false, false⟩ : CoordState).isSpeaking = true ∧
     storyWords "Hi there. Bye" ≠ [] ∧
     6 * (storyWords "Hi there. Bye").length + 1 ≤ 100) ∧
    0 :: (fbRun (storyWords "Hi there. Bye") 1
        (startFallback ⟨true, none, false, none, none, false, false⟩) 100).1 =
      List.range (storyWords "Hi there. Bye").length ∧
    (fbRun (storyWords "Hi there. Bye") 1
        (startFallback ⟨true, none, false, none, none, false, false⟩) 100).2 =
      { (⟨true, none, false, none, none, false, false⟩ : CoordState) with
          highlightTimer := none, isSpeaking := false, currentWordIndex := none } := by
  refine ⟨⟨rfl, by decide, by decide⟩, ?_, ?_⟩
  · exact (fallback_pacing_visits_every_word "Hi there. Bye" 1
      ⟨true, none, false, none, none, false, false⟩ 100 rfl (by decide) (by decide)).2.1
  · exact (fallback_pacing_visits_every_word "Hi there. Bye" 1
      ⟨true, none, false, none, none, false, false⟩ 100 rfl (by decide) (by decide)).2.2
